import Mathlib

/-!
Shallow embedding of `mlist.py`, a curses-based text viewer with a
directory browser.  Strings are modelled as lists of characters
(`Str`), Python `int` values as `Int`, and the stateful key-handling
loops as explicit step functions on state records.  Each definition is
translated from the corresponding Python function; line references
point into `src/mlist.py`.
-/

namespace Mlist

/-- Python strings, modelled as lists of characters. -/
abbrev Str := List Char

/-- Model of Python `str.lower()` (restricted to the ASCII case map of
`Char.toLower`, which covers all inputs exercised here). -/
def lowercase (s : Str) : Str := s.map Char.toLower

/-- Model of the Python substring test `q in s`: `q` occurs
contiguously inside `s` (the empty string occurs in every string). -/
def isSubstring (q : Str) : Str → Bool
  | [] => q.isPrefixOf []
  | c :: t => q.isPrefixOf (c :: t) || isSubstring q t

/-- The match predicate of `search_forward`/`search_backward`
(mlist.py:159, 170): `query.lower() in line.lower()`. -/
def matchesCI (q line : Str) : Bool := isSubstring (lowercase q) (lowercase line)

/-- `clamp` (mlist.py:56-57): `max(lo, min(hi, n))`. -/
def clamp (n lo hi : Int) : Int := max lo (min hi n)

/-- The viewer state (`ViewerState.__init__`, mlist.py:41-50).
`total` is not a separate field: in the source it is set once to
`len(lines)` and `lines` is never mutated, so it is modelled as the
derived value `ViewerState.total` below. -/
structure ViewerState where
  lines : List Str
  filename : Str
  cur : Int
  top : Int
  hscroll : Int
  show_linenums : Bool
  search_q : Option Str
  deriving DecidableEq

/-- `self.total = len(self.lines)` (mlist.py:45). -/
def ViewerState.total (st : ViewerState) : Nat := st.lines.length

/-- Does line `i` of the buffer match `q` case-insensitively?  This is
the loop-body test `query.lower() in state.lines[i].lower()`
(mlist.py:159, 170); an out-of-range index matches nothing. -/
def matchAt (lines : List Str) (q : Str) (i : Nat) : Bool :=
  match lines.get? i with
  | some line => matchesCI q line
  | none => false

/-- `search_forward` (mlist.py:153-161): scan indices
`start, start+1, ..., total-1` and return the first matching index,
or `-1` if none matches.  The `start_line is None` default is never
used by the main loop, which always passes the start explicitly. -/
def search_forward (lines : List Str) (q : Str) (start : Nat) : Int :=
  match (List.range' start (lines.length - start)).find? (matchAt lines q) with
  | some i => (i : Int)
  | none => -1

/-- `search_backward` (mlist.py:164-172): scan indices
`start, start-1, ..., 0` and return the first matching index, or `-1`
if none matches. -/
def search_backward (lines : List Str) (q : Str) : Nat → Int
  | 0 => if matchAt lines q 0 then (0 : Int) else -1
  | s + 1 =>
    if matchAt lines q (s + 1) then ((s + 1 : Nat) : Int)
    else search_backward lines q s

/-- The keys handled by the main loop (mlist.py:197-242), with the
query string typed at a search prompt attached to the '/' and '?'
keys.  Key aliases that share a handler (arrow vs letter) share a
constructor; `other` stands for any unhandled key. -/
inductive Key where
  | up
  | down
  | left
  | right
  | pageUp
  | pageDown
  | home
  | endKey
  | toggleNums
  | slash (q : Str)
  | question (q : Str)
  | findNext
  | other
  deriving DecidableEq

/-- The viewport recomputation at the top of the main loop
(mlist.py:187-190): if the current line is above the viewport, scroll
up to it; if it is at or below the bottom, scroll down so the current
line is the last visible line.  `maxy` is the terminal height. -/
def viewportFix (st : ViewerState) (maxy : Int) : ViewerState :=
  if st.cur < st.top then { st with top := st.cur }
  else if st.cur ≥ st.top + maxy - 1 then { st with top := st.cur - maxy + 2 }
  else st

/-- One key-driven state mutation of the main loop (mlist.py:197-242).
`maxy` is the terminal height read at the top of the iteration.  The
'F' branch fires only when `state.search_q` is truthy in Python, i.e.
present and non-empty. -/
def step (maxy : Int) (st : ViewerState) (k : Key) : ViewerState :=
  match k with
  | .up => { st with cur := clamp (st.cur - 1) 0 ((st.total : Int) - 1) }
  | .down => { st with cur := clamp (st.cur + 1) 0 ((st.total : Int) - 1) }
  | .left => { st with hscroll := clamp (st.hscroll - 1) 0 1000 }
  | .right => { st with hscroll := clamp (st.hscroll + 1) 0 1000 }
  | .pageUp => { st with cur := clamp (st.cur - (maxy - 2)) 0 ((st.total : Int) - 1) }
  | .pageDown => { st with cur := clamp (st.cur + (maxy - 2)) 0 ((st.total : Int) - 1) }
  | .home => { st with cur := 0 }
  | .endKey => { st with cur := (st.total : Int) - 1 }
  | .toggleNums => { st with show_linenums := !st.show_linenums }
  | .slash q =>
    if q ≠ [] then
      if search_forward st.lines q st.cur.toNat ≠ -1 then
        { st with search_q := some q, cur := search_forward st.lines q st.cur.toNat }
      else { st with search_q := some q }
    else st
  | .question q =>
    if q ≠ [] then
      if search_backward st.lines q st.cur.toNat ≠ -1 then
        { st with search_q := some q, cur := search_backward st.lines q st.cur.toNat }
      else { st with search_q := some q }
    else st
  | .findNext =>
    match st.search_q with
    | some q =>
      if q ≠ [] then
        if search_forward st.lines q (st.cur + 1).toNat ≠ -1 then
          { st with cur := search_forward st.lines q (st.cur + 1).toNat }
        else st
      else st
    | none => st
  | .other => st

/-- The keys handled by the directory-browser loop
(mlist.py:89-109). -/
inductive BKey where
  | quit
  | up
  | down
  | enter
  | backspace
  | other
  deriving DecidableEq

/-- Outcome of one iteration of the browser loop: keep browsing with a
new selection index, exit the process, return a selected entry, or
crash with an out-of-range list access (Python `IndexError`). -/
inductive BrowseStep where
  | cont (idx : Int)
  | exitProgram
  | selected (entry : Str)
  | crash
  deriving DecidableEq

/-- One iteration of the key handling of `browse_dir` (mlist.py:89-109),
acting on the selection index `idx` carried over from the previous
iteration and the entry list `entries` regenerated at the top of the
current iteration.  `isDir` is the filesystem oracle `os.path.isdir`
for the joined path.  The ENTER branch evaluates `entries[idx]`; an
index at or past `len(entries)` raises `IndexError`, modelled as
`crash` (a negative index cannot occur: `idx` starts at 0 and is only
ever clamped to lower bound 0 or reset to 0). -/
def browse_step (entries : List Str) (idx : Int) (isDir : Str → Bool) (k : BKey) :
    BrowseStep :=
  match k with
  | .quit => .exitProgram
  | .up => .cont (clamp (idx - 1) 0 ((entries.length : Int) - 1))
  | .down => .cont (clamp (idx + 1) 0 ((entries.length : Int) - 1))
  | .enter =>
    if h : 0 ≤ idx ∧ idx.toNat < entries.length then
      let sel := entries.get ⟨idx.toNat, h.2⟩
      if sel = ['.', '.'] then .cont 0
      else if isDir sel then .cont 0
      else .selected sel
    else .crash
  | .backspace => .cont 0
  | .other => .cont idx

/-- Python's lexicographic string order on code points, as a boolean
`≤` test (the order used by `sorted` on strings). -/
def strLe : Str → Str → Bool
  | [], _ => true
  | _ :: _, [] => false
  | a :: as, b :: bs => if a = b then strLe as bs else decide (a < b)

/-- The entry list regenerated at the top of every browser iteration
(mlist.py:71-74): `[".."] + sorted(os.listdir(path))` on success, and
just `[".."]` when listing the directory fails. -/
def browse_entries (listing : Option (List Str)) : List Str :=
  match listing with
  | some names => ['.', '.'] :: names.mergeSort strLe
  | none => [['.', '.']]

/-- Python line-boundary characters recognised by `str.splitlines`. -/
def isLineBreak (c : Char) : Bool :=
  c = '\n' || c = '\r' || c = '\x0b' || c = '\x0c' ||
  c = '\x1c' || c = '\x1d' || c = '\x1e' || c = '\x85' ||
  c = '\u2028' || c = '\u2029'

/-- Worker for `splitlines`: `cur` is the current line accumulated in
reverse.  A CRLF pair counts as a single boundary; a final line is
emitted only if non-empty (so the empty string splits to no lines). -/
def splitlinesGo (cur : Str) : Str → List Str
  | [] => if cur = [] then [] else [cur.reverse]
  | '\r' :: '\n' :: rest => cur.reverse :: splitlinesGo [] rest
  | c :: rest =>
    if isLineBreak c then cur.reverse :: splitlinesGo [] rest
    else splitlinesGo (c :: cur) rest

/-- Model of Python `str.splitlines()` (mlist.py:35): split on
universal newline boundaries, discarding the terminators. -/
def splitlines (s : Str) : List Str := splitlinesGo [] s

/-- Is `b` a UTF-8 continuation byte (`0x80..0xBF`)? -/
def isCont (b : Nat) : Bool := 0x80 ≤ b && b ≤ 0xBF

/-- The Unicode replacement character U+FFFD. -/
def replChar : Char := Char.ofNat 0xFFFD

/-- Decode one UTF-8 sequence led by byte `b`, with the remaining
bytes `rest` available for continuations: returns the decoded
character and how many continuation bytes it consumed.  A rejected
lead byte (invalid lead, out-of-range or missing continuation,
overlong form, or surrogate) yields U+FFFD and consumes nothing
further. -/
def utf8Step (b : Nat) (rest : List Nat) : Char × Nat :=
  if b < 0x80 then (Char.ofNat b, 0)
  else if 0xC2 ≤ b && b ≤ 0xDF then
    match rest with
    | c1 :: _ =>
      if isCont c1 then (Char.ofNat ((b - 0xC0) * 0x40 + (c1 - 0x80)), 1)
      else (replChar, 0)
    | [] => (replChar, 0)
  else if 0xE0 ≤ b && b ≤ 0xEF then
    match rest with
    | c1 :: c2 :: _ =>
      if isCont c1 && isCont c2 && !(b = 0xE0 && c1 < 0xA0) && !(b = 0xED && c1 > 0x9F) then
        (Char.ofNat ((b - 0xE0) * 0x1000 + (c1 - 0x80) * 0x40 + (c2 - 0x80)), 2)
      else (replChar, 0)
    | _ => (replChar, 0)
  else if 0xF0 ≤ b && b ≤ 0xF4 then
    match rest with
    | c1 :: c2 :: c3 :: _ =>
      if isCont c1 && isCont c2 && isCont c3 &&
          !(b = 0xF0 && c1 < 0x90) && !(b = 0xF4 && c1 > 0x8F) then
        (Char.ofNat ((b - 0xF0) * 0x40000 + (c1 - 0x80) * 0x1000 +
            (c2 - 0x80) * 0x40 + (c3 - 0x80)), 3)
      else (replChar, 0)
    | _ => (replChar, 0)
  else (replChar, 0)

/-- Worker for `utf8DecodeReplace`, structurally recursive on a fuel
bound: each step consumes the lead byte plus the continuation bytes
accepted by `utf8Step`, so fuel equal to the byte count never runs
out. -/
def utf8DecodeGo : Nat → List Nat → Str
  | 0, _ => []
  | _, [] => []
  | fuel + 1, b :: rest =>
    let s := utf8Step b rest
    s.1 :: utf8DecodeGo fuel (rest.drop s.2)

/-- Model of `raw.decode("utf-8", errors="replace")` (mlist.py:34): a
total UTF-8 decoder that substitutes U+FFFD for each rejected lead
byte and resumes at the following byte.  Decoding never fails: every
byte list yields a character list. -/
def utf8DecodeReplace (bs : List Nat) : Str := utf8DecodeGo bs.length bs

/-- The pure tail of `read_text` (mlist.py:35-38): split the decoded
text into lines and replace an empty result with one empty line. -/
def read_text_lines (data : Str) : List Str :=
  let lines := splitlines data
  if lines = [] then [[]] else lines

/-- `read_text` (mlist.py:26-38) applied to the outcome of reading the
input bytes.  Opening or reading the path raises `IOError`, modelled
as the `Except.error` case passing through; on successfully read
bytes the loader decodes with replacement and splits, and always
succeeds. -/
def read_text (input : Except String (List Nat)) : Except String (List Str) :=
  match input with
  | .error e => .error e
  | .ok raw => .ok (read_text_lines (utf8DecodeReplace raw))

/-- The three-line buffer of the worked search scenario: "alpha",
"Beta", "gamma". -/
def demoLines : List Str := ["alpha".toList, "Beta".toList, "gamma".toList]

/-- The scenario query: "eta". -/
def etaQ : Str := "eta".toList

/-- The initial viewer state over `demoLines`: cursor on line 0, no
scroll, no stored query (`ViewerState.__init__`). -/
def demoState : ViewerState :=
  { lines := demoLines, filename := [], cur := 0, top := 0, hscroll := 0,
    show_linenums := false, search_q := none }

/-- The legal range of the current line index: `[0, total-1]`. -/
def curInRange (st : ViewerState) : Prop :=
  0 ≤ st.cur ∧ st.cur ≤ (st.total : Int) - 1

instance (st : ViewerState) : Decidable (curInRange st) := by
  unfold curInRange; infer_instance

/-- The legal range of the horizontal scroll offset: `[0, 1000]`. -/
def hscrollInRange (st : ViewerState) : Prop :=
  0 ≤ st.hscroll ∧ st.hscroll ≤ 1000

instance (st : ViewerState) : Decidable (hscrollInRange st) := by
  unfold hscrollInRange; infer_instance

lemma clamp_mem (n lo hi : Int) (h : lo ≤ hi) :
    lo ≤ clamp n lo hi ∧ clamp n lo hi ≤ hi := by
  unfold clamp
  omega

lemma find?_range'_none (p : Nat → Bool) (n s : Nat) :
    (List.range' s n).find? p = none ↔ ∀ i, s ≤ i → i < s + n → p i = false := by
  rw [List.find?_eq_none]
  constructor
  · intro h i h1 h2
    have := h i (by rw [List.mem_range'_1]; omega)
    simpa using this
  · intro h x hx
    rw [List.mem_range'_1] at hx
    simp [h x hx.1 hx.2]

lemma find?_range'_some (p : Nat → Bool) :
    ∀ n s j, (List.range' s n).find? p = some j →
      s ≤ j ∧ j < s + n ∧ p j = true ∧ ∀ i, s ≤ i → i < j → p i = false := by
  intro n
  induction n with
  | zero => intro s j h; simp at h
  | succ n ih =>
    intro s j h
    rw [List.range'_succ] at h
    rw [List.find?_cons] at h
    rcases hp : p s with _ | _
    · rw [hp] at h
      simp only at h
      obtain ⟨h1, h2, h3, h4⟩ := ih (s + 1) j h
      refine ⟨by omega, by omega, h3, ?_⟩
      intro i hi1 hi2
      rcases Nat.eq_or_lt_of_le hi1 with rfl | hlt
      · exact hp
      · exact h4 i hlt hi2
    · rw [hp] at h
      simp only [Option.some.injEq] at h
      subst h
      exact ⟨Nat.le_refl _, by omega, hp, fun i h1 h2 => by omega⟩

lemma search_forward_found (lines : List Str) (q : Str) (s j : Nat)
    (h : search_forward lines q s = (j : Int)) :
    s ≤ j ∧ j < lines.length ∧ matchAt lines q j = true ∧
      ∀ i, s ≤ i → i < j → matchAt lines q i = false := by
  unfold search_forward at h
  rcases hf : (List.range' s (lines.length - s)).find? (matchAt lines q) with _ | i
  · rw [hf] at h; simp at h
  · rw [hf] at h
    simp only [Int.ofNat_inj] at h
    obtain ⟨h1, h2, h3, h4⟩ := find?_range'_some (matchAt lines q) _ s i hf
    subst h
    exact ⟨h1, by omega, h3, h4⟩

lemma search_forward_none (lines : List Str) (q : Str) (s : Nat) :
    search_forward lines q s = -1 ↔
      ∀ i, s ≤ i → i < lines.length → matchAt lines q i = false := by
  unfold search_forward
  rcases hf : (List.range' s (lines.length - s)).find? (matchAt lines q) with _ | i
  · simp only [iff_true_intro rfl, true_iff]
    intro i h1 h2
    exact (find?_range'_none (matchAt lines q) _ s).mp hf i h1 (by omega)
  · obtain ⟨h1, h2, h3, _⟩ := find?_range'_some (matchAt lines q) _ s i hf
    simp only
    constructor
    · intro h; omega
    · intro h
      have := h i h1 (by omega)
      rw [this] at h3
      exact absurd h3 (by simp)

lemma search_backward_match (lines : List Str) (q : Str) (s : Nat)
    (h : matchAt lines q s = true) : search_backward lines q s = (s : Int) := by
  cases s with
  | zero => simp [search_backward, h]
  | succ n => simp [search_backward, h]

lemma search_backward_found (lines : List Str) (q : Str) :
    ∀ s : Nat, search_backward lines q s = -1 ∨
      ∃ j : Nat, j ≤ s ∧ search_backward lines q s = (j : Int) ∧
        matchAt lines q j = true := by
  intro s
  induction s with
  | zero =>
    rcases h : matchAt lines q 0 with _ | _
    · left; simp [search_backward, h]
    · right; exact ⟨0, Nat.le_refl _, by simp [search_backward, h], h⟩
  | succ n ih =>
    rcases h : matchAt lines q (n + 1) with _ | _
    · have heq : search_backward lines q (n + 1) = search_backward lines q n := by
        simp [search_backward, h]
      rcases ih with h0 | ⟨j, hj1, hj2, hj3⟩
      · left; rw [heq]; exact h0
      · right; exact ⟨j, by omega, by rw [heq]; exact hj2, hj3⟩
    · right
      exact ⟨n + 1, Nat.le_refl _, search_backward_match lines q (n + 1) h, h⟩

/-- C1: for every viewer state with current index in `[0, total-1]`
and every terminal height at least 2, the viewport recomputation at
the top of the main loop restores the invariant
`top ≤ cur ≤ top + viewport_height - 1`, with viewport height
`maxy - 1`. -/
theorem viewportFix_invariant (st : ViewerState) (maxy : Int)
    (hmaxy : 2 ≤ maxy) (hcur : curInRange st) :
    (viewportFix st maxy).top ≤ (viewportFix st maxy).cur ∧
      (viewportFix st maxy).cur ≤ (viewportFix st maxy).top + (maxy - 1) - 1 := by
  obtain ⟨h0, h1⟩ := hcur
  by_cases hA : st.cur < st.top
  · rw [viewportFix, if_pos hA]
    refine ⟨le_refl _, ?_⟩
    show st.cur ≤ st.cur + (maxy - 1) - 1
    omega
  · rw [viewportFix, if_neg hA]
    by_cases hB : st.cur ≥ st.top + maxy - 1
    · rw [if_pos hB]
      refine ⟨?_, ?_⟩
      · show st.cur - maxy + 2 ≤ st.cur
        omega
      · show st.cur ≤ st.cur - maxy + 2 + (maxy - 1) - 1
        omega
    · rw [if_neg hB]
      exact ⟨by omega, by omega⟩

theorem viewportFix_invariant_witness :
    2 ≤ (24 : Int) ∧
      curInRange ⟨[['a'], ['b'], ['c']], ['f'], 2, 0, 0, false, none⟩ ∧
      ((viewportFix ⟨[['a'], ['b'], ['c']], ['f'], 2, 0, 0, false, none⟩ 24).top ≤
          (viewportFix ⟨[['a'], ['b'], ['c']], ['f'], 2, 0, 0, false, none⟩ 24).cur ∧
        (viewportFix ⟨[['a'], ['b'], ['c']], ['f'], 2, 0, 0, false, none⟩ 24).cur ≤
          (viewportFix ⟨[['a'], ['b'], ['c']], ['f'], 2, 0, 0, false, none⟩ 24).top +
            (24 - 1) - 1) :=
  ⟨by decide, by decide,
    viewportFix_invariant ⟨[['a'], ['b'], ['c']], ['f'], 2, 0, 0, false, none⟩ 24
      (by decide) (by decide)⟩

/-- C3: forward search from a start index in `[0, total-1]` returns
the smallest index `j` in `[start, total)` whose line matches the
query case-insensitively as a substring, and returns `-1` exactly
when no index in `[start, total)` matches. -/
theorem search_forward_correct (lines : List Str) (q : Str) (s : Nat)
    (hs : s < lines.length) :
    (∀ j : Nat, search_forward lines q s = (j : Int) →
      s ≤ j ∧ j < lines.length ∧ matchAt lines q j = true ∧
        ∀ i, s ≤ i → i < j → matchAt lines q i = false) ∧
    (search_forward lines q s = -1 ↔
      ∀ i, s ≤ i → i < lines.length → matchAt lines q i = false) := by
  exact ⟨fun j h => search_forward_found lines q s j h, search_forward_none lines q s⟩

theorem search_forward_correct_witness :
    0 < [['a'], ['b']].length ∧
      search_forward [['a'], ['b']] ['b'] 0 = 1 ∧
      matchAt [['a'], ['b']] ['b'] 1 = true := by
  have h := search_forward_correct [['a'], ['b']] ['b'] 0 (by decide)
  exact ⟨by decide, by decide, (h.1 1 (by decide)).2.2.1⟩

/-- C4: forward search is a left inverse of backward search on a
match: if forward search from `i` in `[0, total-1]` returns a match at
line `j`, then backward search from `j` returns a match at some line
at most `j` (and so does not signal not-found). -/
theorem forward_then_backward (lines : List Str) (q : Str) (i j : Nat)
    (hi : i < lines.length) (hf : search_forward lines q i = (j : Int)) :
    ∃ m : Nat, m ≤ j ∧ search_backward lines q j = (m : Int) ∧
      matchAt lines q m = true := by
  obtain ⟨h1, h2, h3, _⟩ := search_forward_found lines q i j hf
  exact ⟨j, Nat.le_refl _, search_backward_match lines q j h3, h3⟩

theorem forward_then_backward_witness :
    0 < [['a'], ['b']].length ∧
      search_forward [['a'], ['b']] ['b'] 0 = 1 ∧
      (∃ m : Nat, m ≤ 1 ∧ search_backward [['a'], ['b']] ['b'] 1 = (m : Int) ∧
        matchAt [['a'], ['b']] ['b'] m = true) :=
  ⟨by decide, by decide,
    forward_then_backward [['a'], ['b']] ['b'] 0 1 (by decide) (by decide)⟩

lemma search_forward_ne_neg_one (lines : List Str) (q : Str) (s : Nat)
    (h : search_forward lines q s ≠ -1) :
    ∃ j : Nat, search_forward lines q s = (j : Int) := by
  unfold search_forward at h ⊢
  rcases hf : (List.range' s (lines.length - s)).find? (matchAt lines q) with _ | i
  · rw [hf] at h
    exact absurd rfl h
  · exact ⟨i, rfl⟩

lemma search_backward_ne_neg_one (lines : List Str) (q : Str) (s : Nat)
    (h : search_backward lines q s ≠ -1) :
    ∃ j : Nat, j ≤ s ∧ search_backward lines q s = (j : Int) ∧
      matchAt lines q j = true := by
  rcases search_backward_found lines q s with h0 | hj
  · exact absurd h0 h
  · exact hj

/-- C2: every key-driven mutation of the main loop keeps the current
line index in `[0, total-1]` and the horizontal offset in `[0, 1000]`:
arrow, paging, home/end, toggle, search-prompt and find-next handlers
all land back in the legal ranges. -/
theorem step_preserves_ranges (maxy : Int) (st : ViewerState) (k : Key)
    (hc : curInRange st) (hh : hscrollInRange st) :
    curInRange (step maxy st k) ∧ hscrollInRange (step maxy st k) := by
  obtain ⟨hc0, hc1⟩ := hc
  obtain ⟨hh0, hh1⟩ := hh
  cases k with
  | up =>
    have h := clamp_mem (st.cur - 1) 0 ((st.total : Int) - 1) (by omega)
    exact ⟨⟨h.1, h.2⟩, hh0, hh1⟩
  | down =>
    have h := clamp_mem (st.cur + 1) 0 ((st.total : Int) - 1) (by omega)
    exact ⟨⟨h.1, h.2⟩, hh0, hh1⟩
  | left =>
    have h := clamp_mem (st.hscroll - 1) 0 1000 (by omega)
    exact ⟨⟨hc0, hc1⟩, h.1, h.2⟩
  | right =>
    have h := clamp_mem (st.hscroll + 1) 0 1000 (by omega)
    exact ⟨⟨hc0, hc1⟩, h.1, h.2⟩
  | pageUp =>
    have h := clamp_mem (st.cur - (maxy - 2)) 0 ((st.total : Int) - 1) (by omega)
    exact ⟨⟨h.1, h.2⟩, hh0, hh1⟩
  | pageDown =>
    have h := clamp_mem (st.cur + (maxy - 2)) 0 ((st.total : Int) - 1) (by omega)
    exact ⟨⟨h.1, h.2⟩, hh0, hh1⟩
  | home =>
    exact ⟨⟨le_refl 0, show (0 : Int) ≤ (st.total : Int) - 1 by omega⟩, hh0, hh1⟩
  | endKey =>
    exact ⟨⟨show (0 : Int) ≤ (st.total : Int) - 1 by omega, le_refl _⟩, hh0, hh1⟩
  | toggleNums => exact ⟨⟨hc0, hc1⟩, hh0, hh1⟩
  | slash q =>
    by_cases hq : q = []
    · subst hq
      have : step maxy st (.slash []) = st := by simp [step]
      rw [this]
      exact ⟨⟨hc0, hc1⟩, hh0, hh1⟩
    · by_cases hr : search_forward st.lines q st.cur.toNat = -1
      · have : step maxy st (.slash q) = { st with search_q := some q } := by
          simp only [step]
          rw [if_pos hq, if_neg (not_not_intro hr)]
        rw [this]
        exact ⟨⟨hc0, hc1⟩, hh0, hh1⟩
      · obtain ⟨j, hj⟩ := search_forward_ne_neg_one _ _ _ hr
        obtain ⟨hj1, hj2, hj3, _⟩ := search_forward_found _ _ _ _ hj
        have hst : step maxy st (.slash q) =
            { st with search_q := some q, cur := (j : Int) } := by
          simp only [step]
          rw [if_pos hq, if_pos hr, hj]
        rw [hst]
        have hjt : j < st.total := hj2
        refine ⟨⟨show (0 : Int) ≤ (j : Int) by omega,
          show (j : Int) ≤ (st.total : Int) - 1 by omega⟩, hh0, hh1⟩
  | question q =>
    by_cases hq : q = []
    · subst hq
      have : step maxy st (.question []) = st := by simp [step]
      rw [this]
      exact ⟨⟨hc0, hc1⟩, hh0, hh1⟩
    · by_cases hr : search_backward st.lines q st.cur.toNat = -1
      · have : step maxy st (.question q) = { st with search_q := some q } := by
          simp only [step]
          rw [if_pos hq, if_neg (not_not_intro hr)]
        rw [this]
        exact ⟨⟨hc0, hc1⟩, hh0, hh1⟩
      · obtain ⟨j, hj0, hj, _⟩ := search_backward_ne_neg_one _ _ _ hr
        have hst : step maxy st (.question q) =
            { st with search_q := some q, cur := (j : Int) } := by
          simp only [step]
          rw [if_pos hq, if_pos hr, hj]
        rw [hst]
        refine ⟨⟨show (0 : Int) ≤ (j : Int) by omega,
          show (j : Int) ≤ (st.total : Int) - 1 by omega⟩, hh0, hh1⟩
  | findNext =>
    rcases hsq : st.search_q with _ | q
    · have : step maxy st .findNext = st := by simp [step, hsq]
      rw [this]
      exact ⟨⟨hc0, hc1⟩, hh0, hh1⟩
    · by_cases hq : q = []
      · subst hq
        have : step maxy st .findNext = st := by simp [step, hsq]
        rw [this]
        exact ⟨⟨hc0, hc1⟩, hh0, hh1⟩
      · by_cases hr : search_forward st.lines q (st.cur + 1).toNat = -1
        · have : step maxy st .findNext = st := by
            simp only [step, hsq]
            rw [if_pos hq, if_neg (not_not_intro hr)]
          rw [this]
          exact ⟨⟨hc0, hc1⟩, hh0, hh1⟩
        · obtain ⟨j, hj⟩ := search_forward_ne_neg_one _ _ _ hr
          obtain ⟨hj1, hj2, hj3, _⟩ := search_forward_found _ _ _ _ hj
          have hst : step maxy st .findNext = { st with cur := (j : Int) } := by
            simp only [step, hsq]
            rw [if_pos hq, if_pos hr, hj]
          rw [hst]
          have hjt : j < st.total := hj2
          refine ⟨⟨show (0 : Int) ≤ (j : Int) by omega,
            show (j : Int) ≤ (st.total : Int) - 1 by omega⟩, hh0, hh1⟩
  | other => exact ⟨⟨hc0, hc1⟩, hh0, hh1⟩

theorem step_preserves_ranges_witness :
    curInRange (⟨[['a'], ['b']], [], 1, 0, 5, false, none⟩ : ViewerState) ∧
      hscrollInRange (⟨[['a'], ['b']], [], 1, 0, 5, false, none⟩ : ViewerState) ∧
      (curInRange (step 24 ⟨[['a'], ['b']], [], 1, 0, 5, false, none⟩ .down) ∧
        hscrollInRange (step 24 ⟨[['a'], ['b']], [], 1, 0, 5, false, none⟩ .down)) :=
  ⟨by decide, by decide,
    step_preserves_ranges 24 ⟨[['a'], ['b']], [], 1, 0, 5, false, none⟩ .down
      (by decide) (by decide)⟩

/-- C5: the browser's selection index is NOT always in bounds at every
access point.  The first conjunct shows index 1 is reachable (DOWN
with a two-entry listing); the second shows the failing input: when
the regenerated listing degrades to just ".." (a listing failure,
mlist.py:73-74) while the carried-over index is 1, pressing ENTER
evaluates `entries[1]` on a one-element list and raises `IndexError`
(mlist.py:97), modelled as `crash`. -/
theorem browse_enter_crash :
    browse_step [['.', '.'], "a.txt".toList] 0 (fun _ => false) .down = .cont 1 ∧
      browse_step (browse_entries none) 1 (fun _ => false) .enter = .crash := by
  exact ⟨by decide, by decide⟩

/-- C6: for every input byte stream the loader produces a line buffer
of length at least 1, and when decoding and splitting yield zero lines
the result is exactly one empty line. -/
theorem read_text_nonempty :
    (∀ raw : List Nat, 1 ≤ (read_text_lines (utf8DecodeReplace raw)).length) ∧
    (∀ raw : List Nat, read_text (.ok raw) = .ok (read_text_lines (utf8DecodeReplace raw))) ∧
    (∀ raw : List Nat, splitlines (utf8DecodeReplace raw) = [] →
      read_text (.ok raw) = .ok [[]]) := by
  refine ⟨?_, fun raw => rfl, ?_⟩
  · intro raw
    by_cases h : splitlines (utf8DecodeReplace raw) = []
    · simp [read_text_lines, h]
    · simp only [read_text_lines, if_neg h]
      exact List.length_pos.mpr h
  · intro raw h
    simp [read_text, read_text_lines, h]

theorem read_text_nonempty_witness :
    splitlines (utf8DecodeReplace []) = [] ∧ read_text (.ok []) = .ok [[]] :=
  ⟨by decide, read_text_nonempty.2.2 [] (by decide)⟩

/-- C7: pressing '/' with a non-empty query stores the query and
searches forward from the current index inclusive, jumping to the
match and staying put on no match; concretely, on the buffer
["alpha", "Beta", "gamma"] with current 0, query "eta" jumps to
line 1 (case-insensitive match on "Beta") and a following 'F' finds
nothing further and leaves current at 1. -/
theorem slash_searches_from_cur (maxy : Int) (st : ViewerState) (q : Str)
    (hq : q ≠ []) :
    ((step maxy st (.slash q)).search_q = some q) ∧
    (search_forward st.lines q st.cur.toNat = -1 →
      (step maxy st (.slash q)).cur = st.cur) ∧
    (∀ j : Nat, search_forward st.lines q st.cur.toNat = (j : Int) →
      (step maxy st (.slash q)).cur = (j : Int) ∧ matchAt st.lines q j = true) ∧
    ((step 24 demoState (.slash etaQ)).cur = 1 ∧
      (step 24 demoState (.slash etaQ)).search_q = some etaQ ∧
      (step 24 (step 24 demoState (.slash etaQ)) .findNext).cur = 1) := by
  refine ⟨?_, ?_, ?_, by decide, by decide, by decide⟩
  · by_cases hr : search_forward st.lines q st.cur.toNat = -1
    · simp only [step]
      rw [if_pos hq, if_neg (not_not_intro hr)]
    · simp only [step]
      rw [if_pos hq, if_pos hr]
  · intro hr
    simp only [step]
    rw [if_pos hq, if_neg (not_not_intro hr)]
  · intro j hj
    have hne : search_forward st.lines q st.cur.toNat ≠ -1 := by
      rw [hj]; omega
    obtain ⟨_, _, hm, _⟩ := search_forward_found _ _ _ _ hj
    simp only [step]
    rw [if_pos hq, if_pos hne, hj]
    exact ⟨rfl, hm⟩

theorem slash_searches_from_cur_witness :
    etaQ ≠ [] ∧ (step 24 demoState (.slash etaQ)).search_q = some etaQ :=
  ⟨by decide, (slash_searches_from_cur 24 demoState etaQ (by decide)).1⟩

/-- C9: an empty query entered at the '/' or '?' prompt leaves the
whole viewer state unchanged, and consequently the stored query is
never the empty string: every key-driven mutation preserves
`search_q ≠ some ""`. -/
theorem empty_query_noop :
    (∀ (maxy : Int) (st : ViewerState),
      step maxy st (.slash []) = st ∧ step maxy st (.question []) = st) ∧
    (∀ (maxy : Int) (st : ViewerState) (k : Key),
      st.search_q ≠ some [] → (step maxy st k).search_q ≠ some []) := by
  constructor
  · intro maxy st
    constructor <;> simp [step]
  · intro maxy st k h
    cases k with
    | up => exact h
    | down => exact h
    | left => exact h
    | right => exact h
    | pageUp => exact h
    | pageDown => exact h
    | home => exact h
    | endKey => exact h
    | toggleNums => exact h
    | slash q =>
      by_cases hq : q = []
      · subst hq
        have e : step maxy st (.slash []) = st := by simp [step]
        rw [e]; exact h
      · simp only [step]
        rw [if_pos hq]
        split_ifs with hr
        · exact fun hcon => hq (Option.some.inj hcon)
        · exact fun hcon => hq (Option.some.inj hcon)
    | question q =>
      by_cases hq : q = []
      · subst hq
        have e : step maxy st (.question []) = st := by simp [step]
        rw [e]; exact h
      · simp only [step]
        rw [if_pos hq]
        split_ifs with hr
        · exact fun hcon => hq (Option.some.inj hcon)
        · exact fun hcon => hq (Option.some.inj hcon)
    | findNext =>
      rcases hsq : st.search_q with _ | q
      · have e : step maxy st .findNext = st := by simp [step, hsq]
        rw [e]; exact h
      · have h2 := h
        rw [hsq] at h2
        simp only [step, hsq]
        split_ifs with hq hr
        · exact h2
        · exact h
        · exact h
    | other => exact h

theorem empty_query_noop_witness :
    step 24 ⟨[['a']], [], 0, 0, 0, false, none⟩ (.slash []) =
        ⟨[['a']], [], 0, 0, 0, false, none⟩ ∧
      (step 24 ⟨[['a']], [], 0, 0, 0, false, none⟩ .down).search_q ≠ some [] :=
  ⟨(empty_query_noop.1 24 ⟨[['a']], [], 0, 0, 0, false, none⟩).1,
    empty_query_noop.2 24 ⟨[['a']], [], 0, 0, 0, false, none⟩ .down (by decide)⟩

/-- C10: when a stored non-empty query exists, 'F' either leaves the
state unchanged (no match at or after `cur + 1`) or jumps to a
strictly larger current index that is at most `total - 1`. -/
theorem findNext_strictly_forward (maxy : Int) (st : ViewerState) (q : Str)
    (hsq : st.search_q = some q) (hq : q ≠ []) (hc : curInRange st) :
    (search_forward st.lines q (st.cur + 1).toNat = -1 →
      step maxy st .findNext = st) ∧
    (∀ j : Nat, search_forward st.lines q (st.cur + 1).toNat = (j : Int) →
      (step maxy st .findNext).cur = (j : Int) ∧ st.cur < (j : Int) ∧
        (j : Int) ≤ (st.total : Int) - 1) := by
  obtain ⟨hc0, hc1⟩ := hc
  constructor
  · intro hr
    simp only [step, hsq]
    rw [if_pos hq, if_neg (not_not_intro hr)]
  · intro j hj
    have hne : search_forward st.lines q (st.cur + 1).toNat ≠ -1 := by
      rw [hj]; omega
    obtain ⟨hj1, hj2, _, _⟩ := search_forward_found _ _ _ _ hj
    have hst : step maxy st .findNext = { st with cur := (j : Int) } := by
      simp only [step, hsq]
      rw [if_pos hq, if_pos hne, hj]
    rw [hst]
    have hjt : j < st.total := hj2
    refine ⟨rfl, ?_, ?_⟩
    · show st.cur < (j : Int)
      omega
    · show (j : Int) ≤ (st.total : Int) - 1
      omega

theorem findNext_strictly_forward_witness :
    (step 24 ⟨[['a'], ['a']], [], 0, 0, 0, false, some ['a']⟩ .findNext).cur = (1 : Int) ∧
      (⟨[['a'], ['a']], [], 0, 0, 0, false, some ['a']⟩ : ViewerState).cur < (1 : Int) ∧
      ((1 : Int) ≤
        ((⟨[['a'], ['a']], [], 0, 0, 0, false, some ['a']⟩ : ViewerState).total : Int) - 1) :=
  (findNext_strictly_forward 24 ⟨[['a'], ['a']], [], 0, 0, 0, false, some ['a']⟩ ['a']
    rfl (by decide) (by decide)).2 1 (by decide)

/-- C8: the loader fails exactly when reading the input bytes fails
(the `IOError` from opening/reading the path passes through), and
never fails on decoding: every successfully read byte list decodes
totally, with undecodable bytes replaced by U+FFFD (here the lone
invalid byte 0xFF). -/
theorem read_text_error_exactly :
    (∀ e : String, read_text (.error e) = .error e) ∧
    (∀ raw : List Nat, ∃ ls : List Str, read_text (.ok raw) = .ok ls) ∧
    utf8DecodeReplace [0xFF] = [replChar] := by
  refine ⟨fun e => rfl, fun raw => ⟨read_text_lines (utf8DecodeReplace raw), rfl⟩, by decide⟩

end Mlist
